import Mathlib

/-!
Verification of the Differentiable-Solver Bridge (spec section 4.4) of the
battery-simulation framework.  The bridge implementation
(`pybamm/solvers/idaklu_jax.py`, the `IDAKLUJax` class) is not among the
sampled source files — only its unit tests
(`tests/unit/test_solvers/test_idaklu_jax.py`) are — so the bridge is
modelled from the specification: each definition carrying a
`Modelled from the spec:` doc comment embeds the behaviour the spec
prescribes for the missing code, faithful to its words and to the call
shapes the test file exercises.  Numeric values are modelled in exact
rational arithmetic, so the spec's floating-point tolerances (1e-6
relative, 1e-7 absolute) become exact equalities.
-/

namespace PybammBridge

/-- Modelled from the spec: the `Solution` object produced by the DAE solver
adapter (spec section 3): a time grid, a value trajectory per output-variable
name (`solution[name](t_i)`), and — when sensitivities were requested — a
sensitivity trajectory per (output variable, named input) pair
(`sim[outvar].sensitivities[invar][i]`), all indexed by solve-time index. -/
structure Solution where
  times : List ℚ
  value : String → Nat → ℚ
  sens : String → String → Nat → ℚ

/-- Modelled from the spec: solver-side errors (`pybamm.SolverError`),
raised for zero output variables or use before initialisation. -/
inductive SolverErr
  | solverError (msg : String)
deriving DecidableEq

/-- Modelled from the spec: the `NotImplementedError`-class error raised for
unsupported differentiation/batching directions (spec section 4.4). -/
inductive JaxErr
  | notImplemented (msg : String)
deriving DecidableEq

/-- Modelled from the spec: the compiled expression cached inside a bridge:
the one closed-over solve (the `Solution`), the declared output-variable set
(order fixed at construction), and the fixed, solver-determined input key
order used to repack positional AD-engine arguments. -/
structure CompiledExpr where
  sol : Solution
  outputVariables : List String
  inputKeys : List String

/-- Modelled from the spec: the explicit bridge state machine
{Uninitialised, Compiled} (spec section 9): accessors are gated on state. -/
inductive BridgeState
  | uninitialised
  | compiled (expr : CompiledExpr)

/-- Modelled from the spec: one bridge instance (`pybamm.IDAKLUJax`); its only
mutable state is the write-once compiled-expression cache. -/
structure IDAKLUJax where
  state : BridgeState

/-- Modelled from the spec: a freshly constructed, never-compiled bridge
(`pybamm.IDAKLUJax(solver)`): the state machine starts Uninitialised. -/
def IDAKLUJax.new : IDAKLUJax := ⟨.uninitialised⟩

/-- First index of `t` in a list (Python's `list.index` / the grid lookup the
bridge uses to locate a requested solve time in the cached time grid). -/
def firstIdx {α : Type} [DecidableEq α] (t : α) : List α → Option Nat
  | [] => none
  | s :: rest => if s = t then some 0 else (firstIdx t rest).map Nat.succ

/-- Index of a solve time point in the solution's time grid. -/
def Solution.timeIdx (sol : Solution) (t : ℚ) : Option Nat :=
  firstIdx t sol.times

/-- All-or-nothing elementwise application of a fallible function
(the monadic map used to model batched evaluation over a time vector). -/
def optionMapList {α β : Type} (g : α → Option β) : List α → Option (List β)
  | [] => some []
  | a :: as =>
    match g a, optionMapList g as with
    | some b, some bs => some (b :: bs)
    | _, _ => none

/-- Modelled from the spec: `jaxify` — compile the bridge.  Requesting zero
output variables fails with `SolverError`; a second compile attempt on an
already-compiled bridge emits a warning (the returned flag) and retains the
original compiled expression unchanged (first-compile wins); otherwise the
compiled expression caches the solve, the declared output-variable order and
the fixed input key order. -/
def IDAKLUJax.jaxify (b : IDAKLUJax) (sol : Solution) (outputVariables : List String)
    (inputKeys : List String) : Except SolverErr (IDAKLUJax × Bool) :=
  if outputVariables.isEmpty then
    .error (.solverError "output_variables must be specified")
  else
    match b.state with
    | .compiled _ => .ok (b, true)
    | .uninitialised => .ok (⟨.compiled ⟨sol, outputVariables, inputKeys⟩⟩, false)

/-- Modelled from the spec: the jaxpr accessor (`get_jaxpr` /
`get_jax_expression`); fails with `SolverError` before first compilation. -/
def IDAKLUJax.get_jaxpr (b : IDAKLUJax) : Except SolverErr CompiledExpr :=
  match b.state with
  | .uninitialised => .error (.solverError "solver not yet initialised")
  | .compiled e => .ok e

/-- Modelled from the spec: the value helper (`jax_value`): the full value
trajectory per output variable; fails with `SolverError` before first
compilation. -/
def IDAKLUJax.jax_value (b : IDAKLUJax) : Except SolverErr (List (String × List ℚ)) :=
  match b.state with
  | .uninitialised => .error (.solverError "solver not yet initialised")
  | .compiled e =>
    .ok (e.outputVariables.map fun v =>
      (v, (List.range e.sol.times.length).map fun i => e.sol.value v i))

/-- Modelled from the spec: the gradient helper (`jax_grad`): the full
sensitivity trajectory per output variable and named input; fails with
`SolverError` before first compilation. -/
def IDAKLUJax.jax_grad (b : IDAKLUJax) :
    Except SolverErr (List (String × List (String × List ℚ))) :=
  match b.state with
  | .uninitialised => .error (.solverError "solver not yet initialised")
  | .compiled e =>
    .ok (e.outputVariables.map fun v =>
      (v, e.inputKeys.map fun w =>
        (w, (List.range e.sol.times.length).map fun i => e.sol.sens v w i)))

/-- The output row at one solve-time index: columns ordered to match the
declared output-variable set. -/
def CompiledExpr.row (e : CompiledExpr) (i : Nat) : List ℚ :=
  e.outputVariables.map fun v => e.sol.value v i

/-- Modelled from the spec: the compiled bridge function `f(time, inputs)` at
a scalar time: locate the time point in the closed-over solve's grid and
return the output row there.  The compiled expression closes over one fixed
solve, so the primal value is read from the cache; the inputs mapping fixes
the argument layout for differentiation. -/
def CompiledExpr.fScalar (e : CompiledExpr) (t : ℚ) (_u : List (String × ℚ)) :
    Option (List ℚ) :=
  (e.sol.timeIdx t).map e.row

/-- Modelled from the spec: `f` at a vector of times (usage shape (2)):
internally batched — the grid indices of all requested times are gathered
first, then the cached trajectory matrix is sliced to one output row per
time point. -/
def CompiledExpr.fVector (e : CompiledExpr) (ts : List ℚ) (_u : List (String × ℚ)) :
    Option (List (List ℚ)) :=
  (optionMapList e.sol.timeIdx ts).map fun idxs => idxs.map e.row

/-- One-hot seed vector over named inputs/outputs, used to assemble full
Jacobians from the AD engine's directional-derivative primitives. -/
def oneHot (u : String) : String → ℚ := fun w => if w = u then 1 else 0

/-- Modelled from the spec: the bridge's custom forward (JVP) rule at one
solve-time index: the directional derivative of every output is the dot
product of the input tangent with the adapter's internally computed
sensitivity tape, accumulated in the fixed input key order. -/
def CompiledExpr.jvpAt (e : CompiledExpr) (i : Nat) (tang : String → ℚ) : List ℚ :=
  e.outputVariables.map fun v =>
    (e.inputKeys.map fun w => tang w * e.sol.sens v w i).sum

/-- Modelled from the spec: forward-mode Jacobian (`jax.jacfwd(f, 1)`) at one
solve-time index: one JVP per named input with a one-hot tangent, results
keyed by input name in the fixed key order. -/
def CompiledExpr.jacfwdAt (e : CompiledExpr) (i : Nat) : List (String × List ℚ) :=
  e.inputKeys.map fun w => (w, e.jvpAt i (oneHot w))

/-- Modelled from the spec: the bridge's custom reverse (VJP) rule at one
solve-time index: the cotangent is contracted against the sensitivity tape
over the declared output variables, yielding one entry per named input. -/
def CompiledExpr.vjpAt (e : CompiledExpr) (i : Nat) (cot : String → ℚ) :
    List (String × ℚ) :=
  e.inputKeys.map fun w =>
    (w, (e.outputVariables.map fun v => cot v * e.sol.sens v w i).sum)

/-- Modelled from the spec: reverse-mode Jacobian (`jax.jacrev(f, 1)`) at one
solve-time index: one VJP per output variable with a one-hot cotangent. -/
def CompiledExpr.jacrevAt (e : CompiledExpr) (i : Nat) : List (List (String × ℚ)) :=
  e.outputVariables.map fun v => e.vjpAt i (oneHot v)

/-- Forward-mode Jacobian of `f` at a scalar solve time. -/
def CompiledExpr.jacfwdScalar (e : CompiledExpr) (t : ℚ) (_u : List (String × ℚ)) :
    Option (List (String × List ℚ)) :=
  (e.sol.timeIdx t).map e.jacfwdAt

/-- Reverse-mode Jacobian of `f` at a scalar solve time. -/
def CompiledExpr.jacrevScalar (e : CompiledExpr) (t : ℚ) (_u : List (String × ℚ)) :
    Option (List (List (String × ℚ))) :=
  (e.sol.timeIdx t).map e.jacrevAt

/-- Modelled from the spec: forward-mode Jacobian at a vector of times:
internally batched like `fVector` — grid indices gathered first, then one
Jacobian per time point. -/
def CompiledExpr.jacfwdVector (e : CompiledExpr) (ts : List ℚ) (_u : List (String × ℚ)) :
    Option (List (List (String × List ℚ))) :=
  (optionMapList e.sol.timeIdx ts).map fun idxs => idxs.map e.jacfwdAt

/-- Modelled from the spec: reverse-mode Jacobian at a vector of times,
internally batched like `fVector`. -/
def CompiledExpr.jacrevVector (e : CompiledExpr) (ts : List ℚ) (_u : List (String × ℚ)) :
    Option (List (List (List (String × ℚ)))) :=
  (optionMapList e.sol.timeIdx ts).map fun idxs => idxs.map e.jacrevAt

/-- The axis the external vectorising-map primitive batches over:
`in_axes = (0, None)` batches over time, `in_axes = (None, 0)` batches over
the inputs argument. -/
inductive VmapAxis
  | timeAxis
  | inputsAxis
deriving DecidableEq

/-- Modelled from the spec: the external AD engine's vectorising-map
primitive applied to plain evaluation of `f`.  Batching over the time axis
applies the scalar evaluator elementwise over the time vector; batching over
different input sets is unsupported and fails with the
`NotImplementedError`-class error. -/
def CompiledExpr.vmapF (e : CompiledExpr) (ax : VmapAxis) (ts : List ℚ)
    (u : List (String × ℚ)) : Except JaxErr (Option (List (List ℚ))) :=
  match ax with
  | .inputsAxis => .error (.notImplemented "batching over inputs is not supported")
  | .timeAxis => .ok (optionMapList (fun t => e.fScalar t u) ts)

/-- Modelled from the spec: the vectorising-map primitive applied to
forward-mode differentiation of `f` with respect to argument `argnum`
(0 = time, 1 = inputs).  Differentiation with respect to time under the
batched primitive is unsupported, as is batching over input sets; both fail
with the `NotImplementedError`-class error. -/
def CompiledExpr.vmapJacfwd (e : CompiledExpr) (argnum : Nat) (ax : VmapAxis)
    (ts : List ℚ) (u : List (String × ℚ)) :
    Except JaxErr (Option (List (List (String × List ℚ)))) :=
  match ax with
  | .inputsAxis => .error (.notImplemented "batching over inputs is not supported")
  | .timeAxis =>
    match argnum with
    | 0 => .error (.notImplemented "differentiation with respect to time is not supported")
    | _ => .ok (optionMapList (fun t => e.jacfwdScalar t u) ts)

/-- Modelled from the spec: the vectorising-map primitive applied to
reverse-mode differentiation of `f` with respect to argument `argnum`;
unsupported directions fail as for the forward case. -/
def CompiledExpr.vmapJacrev (e : CompiledExpr) (argnum : Nat) (ax : VmapAxis)
    (ts : List ℚ) (u : List (String × ℚ)) :
    Except JaxErr (Option (List (List (List (String × ℚ))))) :=
  match ax with
  | .inputsAxis => .error (.notImplemented "batching over inputs is not supported")
  | .timeAxis =>
    match argnum with
    | 0 => .error (.notImplemented "differentiation with respect to time is not supported")
    | _ => .ok (optionMapList (fun t => e.jacrevScalar t u) ts)

/-- Modelled from the spec: the external AD engine's just-in-time compilation
wrapper, a semantics-preserving transform of a pure function (spec section 5:
pure-function contract, no hidden mutable state). -/
def jaxJit {α β : Type} (g : α → β) : α → β := g

/-- Modelled from the spec: `get_vars(f, subset)` — restrict the compiled
function to an ordered subset of the declared outputs: the index of each
requested variable in the declared output-variable set is looked up once,
then the output row is sliced at those columns, in the requested order. -/
def CompiledExpr.get_vars (e : CompiledExpr) (subset : List String) (t : ℚ)
    (u : List (String × ℚ)) : Option (List ℚ) :=
  (optionMapList (fun v => firstIdx v e.outputVariables) subset).bind fun idxs =>
    (e.fScalar t u).map fun out => idxs.map fun j => out.getD j 0

/-- Modelled from the spec: `get_var(f, name)` — restrict the compiled
function to exactly one named output, returning its scalar value. -/
def CompiledExpr.get_var (e : CompiledExpr) (v : String) (t : ℚ)
    (u : List (String × ℚ)) : Option ℚ :=
  (firstIdx v e.outputVariables).bind fun j =>
    (e.fScalar t u).map fun out => out.getD j 0

/-- Entry of a forward-mode Jacobian at input position `a`, output position
`b`: the input's name paired with the derivative value. -/
def jacfwdEntry (m : List (String × List ℚ)) (a b : Nat) : Option (String × ℚ) :=
  (m.get? a).bind fun p => (p.2.get? b).map fun q => (p.1, q)

/-- Entry of a reverse-mode Jacobian at input position `a`, output position
`b`: the input's name paired with the derivative value. -/
def jacrevEntry (m : List (List (String × ℚ))) (a b : Nat) : Option (String × ℚ) :=
  (m.get? b).bind fun r => r.get? a

/-! ### Concrete sample data for witnesses

Mirrors the test scenario: 10 equally spaced solve times in [0, 360]
(`np.linspace(0, 360, 10)`), the output variables and named scalar inputs of
the test file, and nontrivial value/sensitivity trajectories. -/

def sampleTimes : List ℚ := [0, 40, 80, 120, 160, 200, 240, 280, 320, 360]

def sampleSol : Solution :=
  ⟨sampleTimes,
   fun v i => (i : ℚ) + (v.length : ℚ) / 100,
   fun v w i => (i : ℚ) + (v.length : ℚ) + (w.length : ℚ) / 10⟩

def sampleOutputs : List String := ["Voltage [V]", "Current [A]", "Time [min]"]

def sampleInputKeys : List String := ["Current function [A]", "Separator porosity"]

def sampleExpr : CompiledExpr := ⟨sampleSol, sampleOutputs, sampleInputKeys⟩

/-! ### Helper lemmas -/

theorem optionMapList_map_comp {α β γ : Type} (g : α → Option β) (h : β → γ) :
    ∀ l : List α,
      optionMapList (fun a => (g a).map h) l = (optionMapList g l).map (List.map h)
  | [] => rfl
  | a :: as => by
    have ih := optionMapList_map_comp g h as
    simp only [optionMapList, ih]
    cases hga : g a <;> cases hrest : optionMapList g as <;> simp [Option.map]

theorem firstIdx_get? {α : Type} [DecidableEq α] (t : α) :
    ∀ (l : List α) (j : Nat), firstIdx t l = some j → l.get? j = some t
  | [], _, h => by simp [firstIdx] at h
  | s :: rest, j, h => by
    by_cases hst : s = t
    · simp [firstIdx, hst] at h
      subst h
      simp [hst]
    · simp [firstIdx, hst] at h
      obtain ⟨j', hj', rfl⟩ := h
      simpa using firstIdx_get? t rest j' hj'

theorem firstIdx_of_nodup {α : Type} [DecidableEq α] :
    ∀ (l : List α) (i : Nat) (t : α), l.Nodup → l.get? i = some t →
      firstIdx t l = some i
  | [], i, _, _, h => by simp at h
  | s :: rest, 0, t, _, h => by
    simp at h
    simp [firstIdx, h]
  | s :: rest, i + 1, t, hnd, h => by
    rw [List.get?_cons_succ] at h
    have hmem : t ∈ rest := List.get?_mem h
    have hne : s ≠ t := by
      rintro rfl
      exact (List.nodup_cons.mp hnd).1 hmem
    have ih := firstIdx_of_nodup rest i t (List.nodup_cons.mp hnd).2 h
    simp [firstIdx, hne, ih]

theorem firstIdx_isSome_of_mem {α : Type} [DecidableEq α] (t : α) :
    ∀ l : List α, t ∈ l → ∃ j, firstIdx t l = some j
  | [], h => by simp at h
  | s :: rest, h => by
    by_cases hst : s = t
    · exact ⟨0, by simp [firstIdx, hst]⟩
    · have hmem : t ∈ rest := by
        rcases List.mem_cons.mp h with h' | h'
        · exact absurd h'.symm hst
        · exact h'
      obtain ⟨j, hj⟩ := firstIdx_isSome_of_mem t rest hmem
      exact ⟨j + 1, by simp [firstIdx, hst, hj]⟩

theorem sum_oneHot_mul_of_not_mem (w : String) (g : String → ℚ) :
    ∀ l : List String, w ∉ l → (l.map fun x => oneHot w x * g x).sum = 0
  | [], _ => rfl
  | a :: as, h => by
    have ha : a ≠ w := fun hh => h (hh ▸ List.mem_cons_self a as)
    have ih := sum_oneHot_mul_of_not_mem w g as (fun hh => h (List.mem_cons_of_mem a hh))
    simp [oneHot, ha] at ih ⊢
    exact ih

theorem sum_oneHot_mul (w : String) (g : String → ℚ) :
    ∀ l : List String, l.Nodup → w ∈ l → (l.map fun x => oneHot w x * g x).sum = g w
  | [], _, hw => by simp at hw
  | a :: as, hnd, hw => by
    by_cases haw : a = w
    · subst haw
      have hnotin : a ∉ as := (List.nodup_cons.mp hnd).1
      have hzero := sum_oneHot_mul_of_not_mem a g as hnotin
      simp [oneHot] at hzero ⊢
      simp [hzero]
    · have hw' : w ∈ as := by
        rcases List.mem_cons.mp hw with h' | h'
        · exact absurd h'.symm haw
        · exact h'
      have ih := sum_oneHot_mul w g as (List.nodup_cons.mp hnd).2 hw'
      simp [oneHot] at ih ⊢
      simp [haw, ih]

theorem optionMapList_ofFn {α β : Type} (g : α → Option β) :
    ∀ (l : List α) (f : Nat → β),
      (∀ i (hi : i < l.length), g (l.get ⟨i, hi⟩) = some (f i)) →
      optionMapList g l = some ((List.range l.length).map f)
  | [], _, _ => rfl
  | a :: as, f, h => by
    have h0 : g a = some (f 0) := h 0 (by simp)
    have ih := optionMapList_ofFn g as (fun i => f (i + 1))
      (fun i hi => h (i + 1) (by simpa using Nat.succ_lt_succ hi))
    simp only [optionMapList, h0, ih, List.length_cons]
    rw [List.range_succ_eq_map]
    simp [Function.comp]

theorem getD_of_get? {α : Type} :
    ∀ (l : List α) (n : Nat) (a d : α), l.get? n = some a → l.getD n d = a
  | [], n, _, _, h => by simp at h
  | x :: xs, 0, a, d, h => by
    simp at h
    simp [List.getD, h]
  | x :: xs, n + 1, a, d, h => by
    rw [List.get?_cons_succ] at h
    simpa [List.getD] using getD_of_get? xs n a d h

theorem optionMapList_firstIdx_map (outs : List String) (g : String → ℚ) :
    ∀ subset : List String, (∀ v ∈ subset, v ∈ outs) →
      ∃ idxs, optionMapList (fun v => firstIdx v outs) subset = some idxs ∧
        idxs.map (fun j => (outs.map g).getD j 0) = subset.map g
  | [], _ => ⟨[], rfl, rfl⟩
  | v :: rest, h => by
    obtain ⟨j, hj⟩ := firstIdx_isSome_of_mem v outs (h v (List.mem_cons_self v rest))
    have hv : outs.get? j = some v := firstIdx_get? v outs j hj
    have hval : (outs.map g).getD j 0 = g v :=
      getD_of_get? (outs.map g) j (g v) 0 (by rw [List.get?_map, hv]; rfl)
    obtain ⟨idxs, hidxs, hmap⟩ :=
      optionMapList_firstIdx_map outs g rest (fun x hx => h x (List.mem_cons_of_mem v hx))
    exact ⟨j :: idxs, by simp [optionMapList, hj, hidxs],
      by simp only [List.map_cons, hval, hmap]⟩

/-! ### Claim theorems -/

/-- C2: applying the external AD engine's vectorising-map primitive over the
time axis (`vmap` with `in_axes = (0, None)`) to the bridge function and
evaluating at a time vector produces element-wise the same values as calling
the function directly on the time vector (the internally batched shape); in
the exact-arithmetic model the spec's 1e-7/1e-6 tolerance becomes
equality. -/
theorem claim2_vmap_time_equals_vector_eval (e : CompiledExpr) (ts : List ℚ)
    (u : List (String × ℚ)) :
    e.vmapF .timeAxis ts u = .ok (e.fVector ts u) := by
  simp only [CompiledExpr.vmapF, CompiledExpr.fVector, CompiledExpr.fScalar]
  rw [optionMapList_map_comp]

/-- C3: evaluating the bridge function at a vector of time points equals the
array of its scalar evaluations at each point taken separately, one output
row per time point, and each row's columns are ordered to match the declared
output-variable set; tolerance becomes equality in exact arithmetic. -/
theorem claim3_vector_eval_equals_scalar_evals (e : CompiledExpr) (ts : List ℚ)
    (u : List (String × ℚ)) :
    e.fVector ts u = optionMapList (fun t => e.fScalar t u) ts ∧
    ∀ t i, e.sol.timeIdx t = some i →
      e.fScalar t u = some (e.outputVariables.map fun v => e.sol.value v i) := by
  constructor
  · simp only [CompiledExpr.fVector, CompiledExpr.fScalar]
    rw [optionMapList_map_comp]
  · intro t i ht
    simp [CompiledExpr.fScalar, CompiledExpr.row, ht]

/-- Witness for C3 at the sample bridge, a concrete two-point time vector and
the solve time 40 (grid index 1). -/
theorem claim3_witness :
    sampleExpr.fVector [40, 200] [] = optionMapList (fun t => sampleExpr.fScalar t []) [40, 200] ∧
    sampleExpr.fScalar 40 []
      = some (sampleExpr.outputVariables.map fun v => sampleExpr.sol.value v 1) :=
  ⟨(claim3_vector_eval_equals_scalar_evals sampleExpr [40, 200] []).1,
   (claim3_vector_eval_equals_scalar_evals sampleExpr [40, 200] []).2 40 1 (by decide)⟩

/-- C5: differentiating the bridge function with respect to its time argument
(`argnums = 0`) under the external vectorising-map primitive fails with the
`NotImplementedError`-class error, for every compiled bridge and equally
under the jit wrapper. -/
theorem claim5_jacfwd_wrt_time_under_vmap_fails (e : CompiledExpr) (ts : List ℚ)
    (u : List (String × ℚ)) :
    e.vmapJacfwd 0 .timeAxis ts u
      = .error (.notImplemented "differentiation with respect to time is not supported") ∧
    jaxJit (fun p : List ℚ × List (String × ℚ) => e.vmapJacfwd 0 .timeAxis p.1 p.2) (ts, u)
      = .error (.notImplemented "differentiation with respect to time is not supported") :=
  ⟨rfl, rfl⟩

/-- C6: applying the external vectorising-map primitive over the inputs axis
(`vmap` with `in_axes = (None, 0)`) to the bridge function — for plain
evaluation, forward-mode differentiation, or reverse-mode differentiation
with respect to inputs — fails with the `NotImplementedError`-class error. -/
theorem claim6_vmap_over_inputs_fails (e : CompiledExpr) (ts : List ℚ)
    (u : List (String × ℚ)) :
    e.vmapF .inputsAxis ts u
      = .error (.notImplemented "batching over inputs is not supported") ∧
    e.vmapJacfwd 1 .inputsAxis ts u
      = .error (.notImplemented "batching over inputs is not supported") ∧
    e.vmapJacrev 1 .inputsAxis ts u
      = .error (.notImplemented "batching over inputs is not supported") :=
  ⟨rfl, rfl, rfl⟩

/-- C7: constructing a bridge (calling `jaxify`) with an empty or omitted
output-variable set raises `SolverError`, whatever the bridge's state, the
solve and the input keys. -/
theorem claim7_empty_output_variables_fails (b : IDAKLUJax) (sol : Solution)
    (inputKeys : List String) :
    b.jaxify sol [] inputKeys = .error (.solverError "output_variables must be specified") :=
  rfl

/-- C8: on a freshly constructed, never-compiled bridge instance, the jaxpr
getter, the value helper and the gradient helper all raise `SolverError`. -/
theorem claim8_uninitialised_accessors_fail :
    IDAKLUJax.new.get_jaxpr = .error (.solverError "solver not yet initialised") ∧
    IDAKLUJax.new.jax_value = .error (.solverError "solver not yet initialised") ∧
    IDAKLUJax.new.jax_grad = .error (.solverError "solver not yet initialised") :=
  ⟨rfl, rfl, rfl⟩

/-- C9: re-initialising an already-compiled bridge (a second `jaxify` call on
the same instance, possibly with new parameters) emits a warning (the
returned flag) and does not overwrite the cache: the bridge is returned
unchanged, its compiled expression is still the original one, and every
evaluation through the returned bridge agrees with evaluation through the
original compiled expression. -/
theorem claim9_reinitialise_warns_and_keeps_cache (b : IDAKLUJax) (e0 : CompiledExpr)
    (sol : Solution) (outs inputKeys : List String)
    (hb : b.state = .compiled e0) (hne : outs ≠ []) :
    b.jaxify sol outs inputKeys = .ok (b, true) ∧
    b.get_jaxpr = .ok e0 ∧
    ∀ b' warned, b.jaxify sol outs inputKeys = .ok (b', warned) →
      ∀ t u, (b'.get_jaxpr.map fun e => e.fScalar t u) = .ok (e0.fScalar t u) := by
  have hok : b.jaxify sol outs inputKeys = .ok (b, true) := by
    cases outs with
    | nil => exact absurd rfl hne
    | cons a as => simp [IDAKLUJax.jaxify, hb]
  have hget : b.get_jaxpr = .ok e0 := by
    simp [IDAKLUJax.get_jaxpr, hb]
  refine ⟨hok, hget, ?_⟩
  intro b' warned h t u
  rw [hok] at h
  have hb' : b' = b := by
    injection h with h1
    injection h1 with h2 _
    exact h2.symm
  rw [hb', hget]
  rfl

/-- Witness for C9: a second `jaxify` on the concretely compiled sample
bridge warns and leaves the cached expression untouched. -/
theorem claim9_witness :
    (⟨.compiled sampleExpr⟩ : IDAKLUJax).jaxify sampleSol sampleOutputs sampleInputKeys
      = .ok (⟨.compiled sampleExpr⟩, true) ∧
    (⟨.compiled sampleExpr⟩ : IDAKLUJax).get_jaxpr = .ok sampleExpr ∧
    ∀ b' warned,
      (⟨.compiled sampleExpr⟩ : IDAKLUJax).jaxify sampleSol sampleOutputs sampleInputKeys
        = .ok (b', warned) →
      ∀ t u, (b'.get_jaxpr.map fun e => e.fScalar t u) = .ok (sampleExpr.fScalar t u) :=
  claim9_reinitialise_warns_and_keeps_cache ⟨.compiled sampleExpr⟩ sampleExpr
    sampleSol sampleOutputs sampleInputKeys rfl (by decide)

/-- C10: a bridge can be compiled over a model with no named scalar inputs:
`jaxify` on a fresh bridge with an empty input-key order succeeds, and the
resulting function evaluated on the full solve-time vector equals the matrix
of Solution values — one row per time point, columns in declared output
order. -/
theorem claim10_no_inputs_eval_matches_solution (b0 : IDAKLUJax) (sol : Solution)
    (outs : List String)
    (hstate : b0.state = .uninitialised) (hne : outs ≠ []) (hnd : sol.times.Nodup) :
    b0.jaxify sol outs [] = .ok (⟨.compiled ⟨sol, outs, []⟩⟩, false) ∧
    (CompiledExpr.mk sol outs []).fVector sol.times []
      = some ((List.range sol.times.length).map fun i => outs.map fun v => sol.value v i) := by
  constructor
  · cases outs with
    | nil => exact absurd rfl hne
    | cons a as => simp [IDAKLUJax.jaxify, hstate]
  · have hidx : optionMapList (CompiledExpr.mk sol outs []).sol.timeIdx sol.times
        = some ((List.range sol.times.length).map id) := by
      apply optionMapList_ofFn
      intro i hi
      exact firstIdx_of_nodup sol.times i (sol.times.get ⟨i, hi⟩) hnd
        (List.get?_eq_get hi)
    simp only [CompiledExpr.fVector, hidx, List.map_id, Option.map_some']
    simp [CompiledExpr.row]

/-- Witness for C10: the fresh sample bridge compiled with no input keys over
the 10-point [0, 360] grid evaluates to the full value matrix. -/
theorem claim10_witness :
    IDAKLUJax.new.jaxify sampleSol sampleOutputs []
      = .ok (⟨.compiled ⟨sampleSol, sampleOutputs, []⟩⟩, false) ∧
    (CompiledExpr.mk sampleSol sampleOutputs []).fVector sampleSol.times []
      = some ((List.range sampleSol.times.length).map fun i =>
          sampleOutputs.map fun v => sampleSol.value v i) :=
  claim10_no_inputs_eval_matches_solution IDAKLUJax.new sampleSol sampleOutputs
    rfl (by decide) (by decide)

/-- C1: forward-mode and reverse-mode differentiation of the bridge function
with respect to the inputs mapping, evaluated at any solve time point, agree
with each other and with the solver adapter's internally computed
sensitivities for every output variable and every named input; at a vector
time the Jacobians are the stacked per-point Jacobians, so agreement holds
there too.  In the exact-arithmetic model the spec's 1e-6 relative tolerance
becomes equality. -/
theorem claim1_jacfwd_jacrev_match_sensitivities (e : CompiledExpr) (t : ℚ)
    (i a b : Nat) (w v : String) (u : List (String × ℚ))
    (ht : e.sol.timeIdx t = some i)
    (hk : e.inputKeys.Nodup)
    (ho : e.outputVariables.Nodup)
    (ha : e.inputKeys.get? a = some w)
    (hb : e.outputVariables.get? b = some v) :
    e.jacfwdScalar t u = some (e.jacfwdAt i) ∧
    e.jacrevScalar t u = some (e.jacrevAt i) ∧
    jacfwdEntry (e.jacfwdAt i) a b = some (w, e.sol.sens v w i) ∧
    jacrevEntry (e.jacrevAt i) a b = some (w, e.sol.sens v w i) ∧
    (∀ ts, e.jacfwdVector ts u = optionMapList (fun s => e.jacfwdScalar s u) ts) ∧
    (∀ ts, e.jacrevVector ts u = optionMapList (fun s => e.jacrevScalar s u) ts) := by
  have hw : w ∈ e.inputKeys := List.get?_mem ha
  have hv : v ∈ e.outputVariables := List.get?_mem hb
  refine ⟨?_, ?_, ?_, ?_, ?_, ?_⟩
  · simp [CompiledExpr.jacfwdScalar, ht]
  · simp [CompiledExpr.jacrevScalar, ht]
  · have h1 : (e.jacfwdAt i).get? a = some (w, e.jvpAt i (oneHot w)) := by
      simp only [CompiledExpr.jacfwdAt]
      rw [List.get?_map, ha]
      rfl
    have h2 : (e.jvpAt i (oneHot w)).get? b
        = some ((e.inputKeys.map fun x => oneHot w x * e.sol.sens v x i).sum) := by
      simp only [CompiledExpr.jvpAt]
      rw [List.get?_map, hb]
      rfl
    simp only [jacfwdEntry, h1, Option.some_bind, h2, Option.map_some']
    rw [sum_oneHot_mul w (fun x => e.sol.sens v x i) e.inputKeys hk hw]
  · have h1 : (e.jacrevAt i).get? b = some (e.vjpAt i (oneHot v)) := by
      simp only [CompiledExpr.jacrevAt]
      rw [List.get?_map, hb]
      rfl
    have h2 : (e.vjpAt i (oneHot v)).get? a
        = some (w, (e.outputVariables.map fun x => oneHot v x * e.sol.sens x w i).sum) := by
      simp only [CompiledExpr.vjpAt]
      rw [List.get?_map, ha]
      rfl
    simp only [jacrevEntry, h1, Option.some_bind, h2]
    rw [sum_oneHot_mul v (fun x => e.sol.sens x w i) e.outputVariables ho hv]
  · intro ts
    simp only [CompiledExpr.jacfwdVector, CompiledExpr.jacfwdScalar]
    rw [optionMapList_map_comp]
  · intro ts
    simp only [CompiledExpr.jacrevVector, CompiledExpr.jacrevScalar]
    rw [optionMapList_map_comp]

/-- Witness for C1 at the sample bridge: time 80 (grid index 2), input
position 1 ("Separator porosity"), output position 0 ("Voltage [V]"). -/
theorem claim1_witness :
    jacfwdEntry (sampleExpr.jacfwdAt 2) 1 0
      = some ("Separator porosity", sampleExpr.sol.sens "Voltage [V]" "Separator porosity" 2) ∧
    jacrevEntry (sampleExpr.jacrevAt 2) 1 0
      = some ("Separator porosity", sampleExpr.sol.sens "Voltage [V]" "Separator porosity" 2) := by
  have h := claim1_jacfwd_jacrev_match_sensitivities sampleExpr 80 2 1 0
    "Separator porosity" "Voltage [V]" [] (by decide) (by decide) (by decide)
    (by decide) (by decide)
  exact ⟨h.2.2.1, h.2.2.2.1⟩

/-- C4: in the end-to-end scenario (a solve over equally spaced time points
with sensitivities), the single-output restriction `get_var(f, name)` at any
sampled time point equals the Solution's processed value
`solution[name](time_point)` for every declared output variable, and
`get_vars(f, subset)` returns the ordered columns for the requested
subset. -/
theorem claim4_getvar_matches_solution (e : CompiledExpr) (i : Nat) (t : ℚ)
    (u : List (String × ℚ)) (subset : List String)
    (hnd : e.sol.times.Nodup)
    (ht : e.sol.times.get? i = some t)
    (hsub : ∀ v ∈ subset, v ∈ e.outputVariables) :
    (∀ v ∈ e.outputVariables, e.get_var v t u = some (e.sol.value v i)) ∧
    e.get_vars subset t u = some (subset.map fun v => e.sol.value v i) := by
  have hidx : e.sol.timeIdx t = some i := firstIdx_of_nodup e.sol.times i t hnd ht
  have hf : e.fScalar t u = some (e.row i) := by
    simp [CompiledExpr.fScalar, hidx]
  constructor
  · intro v hv
    obtain ⟨j, hj⟩ := firstIdx_isSome_of_mem v e.outputVariables hv
    have hgetv : e.outputVariables.get? j = some v := firstIdx_get? v e.outputVariables j hj
    have hrow : (e.row i).getD j 0 = e.sol.value v i := by
      apply getD_of_get?
      simp only [CompiledExpr.row]
      rw [List.get?_map, hgetv]
      rfl
    simp only [CompiledExpr.get_var, hj, Option.some_bind, hf, Option.map_some', hrow]
  · obtain ⟨idxs, hidxs, hmap⟩ :=
      optionMapList_firstIdx_map e.outputVariables (fun v => e.sol.value v i) subset hsub
    simp only [CompiledExpr.get_vars, hidxs, Option.some_bind, hf, Option.map_some',
      CompiledExpr.row]
    rw [hmap]

/-- Witness for C4 at the sample bridge: 10 equally spaced solve times in
[0, 360], time 200 (grid index 5), and a reordered two-variable subset. -/
theorem claim4_witness :
    sampleExpr.get_var "Voltage [V]" 200 [] = some (sampleExpr.sol.value "Voltage [V]" 5) ∧
    sampleExpr.get_vars ["Current [A]", "Voltage [V]"] 200 []
      = some (["Current [A]", "Voltage [V]"].map fun v => sampleExpr.sol.value v 5) := by
  have h := claim4_getvar_matches_solution sampleExpr 5 200 []
    ["Current [A]", "Voltage [V]"] (by decide) (by decide) (by decide)
  exact ⟨h.1 "Voltage [V]" (by decide), h.2⟩

end PybammBridge
